import Mathlib

/-!
Verification of the mask-to-vector post-processing subsystem of the
Software-Lab repository (`src/post_processing.py`): skeletonization,
Hough-based line detection, proximity/angle-based merging of candidate
segments, and SVG export.  The Python functions are shallowly embedded:
integer pixel coordinates become `Int`, numpy float computations become
exact real arithmetic, Python `None` becomes `Option.none`, and a raised
exception becomes `Except.error`.
-/

namespace PostProcessing

/-- A detected line segment `(x1, y1, x2, y2)` in pixel coordinates, one row
`line[0]` of the `(N, 1, 4)` array produced by the Hough transform
(`post_processing.py` line 72).  The source stores machine integers; for
160x160 images every value stays far below the word size, so we model the
coordinates as unbounded integers. -/
structure Seg where
  x1 : Int
  y1 : Int
  x2 : Int
  y2 : Int
deriving DecidableEq, Repr

/-- Python `int(a / 2)` for an integer `a`: true division by 2 followed by
`int` truncation toward zero (`post_processing.py` lines 85-88; division of
an integer by 2 is exact in binary floating point, so the composition is
exactly "halve, round toward zero"). -/
def pyint_half (a : Int) : Int :=
  if 0 ≤ a then a / 2 else -((-a) / 2)

/-- The endpoint averaging performed when a candidate `c` merges into a stored
segment `m` (`post_processing.py` lines 84-89): each coordinate becomes
`int((c + m) / 2)`. -/
def mergeSeg (c m : Seg) : Seg :=
  ⟨pyint_half (c.x1 + m.x1), pyint_half (c.y1 + m.y1),
   pyint_half (c.x2 + m.x2), pyint_half (c.y2 + m.y2)⟩

/-- Squared Euclidean distance between the two segments' start points: the
argument of `np.sqrt` at `post_processing.py` line 78. -/
def distSq (c m : Seg) : Int := (c.x1 - m.x1) ^ 2 + (c.y1 - m.y1) ^ 2

open Classical in
/-- `np.arctan2 y x` (`post_processing.py` line 80): the angle of the vector
`(x, y)` in `(-pi, pi]`, with the branch choices of the C `atan2` that numpy
exposes (`arctan2(0, x) = pi` for `x < 0`, `arctan2(0, 0) = 0`). -/
noncomputable def arctan2 (y x : ℝ) : ℝ :=
  if 0 < x then Real.arctan (y / x)
  else if x < 0 then
    (if 0 ≤ y then Real.arctan (y / x) + Real.pi else Real.arctan (y / x) - Real.pi)
  else
    (if 0 < y then Real.pi / 2 else if y < 0 then -(Real.pi / 2) else 0)

/-- Direction angle of a segment: `np.arctan2(y2 - y1, x2 - x1)`
(`post_processing.py` line 80). -/
noncomputable def segAngle (s : Seg) : ℝ :=
  arctan2 ((s.y2 - s.y1 : Int) : ℝ) ((s.x2 - s.x1 : Int) : ℝ)

/-- `distance` at `post_processing.py` line 78: Euclidean distance between the
candidate's and the stored segment's start points. -/
noncomputable def startDistance (c m : Seg) : ℝ := Real.sqrt ((distSq c m : Int) : ℝ)

/-- `angle_diff` at `post_processing.py` lines 79-81: the raw absolute
difference of the two `arctan2` angles, converted to degrees.  No
normalisation to `[0, 180]` or to orientation (mod 180 degrees) is applied. -/
noncomputable def angleDiffDeg (c m : Seg) : ℝ :=
  |segAngle c - segAngle m| * 180 / Real.pi

/-- The merge test at `post_processing.py` line 83:
`distance < proximity_threshold and angle_diff < angle_threshold`. -/
def mergeCond (prox angleThr : ℝ) (c m : Seg) : Prop :=
  startDistance c m < prox ∧ angleDiffDeg c m < angleThr

open Classical in
/-- The inner `for m_line in merged_lines` scan for one candidate `c`
(`post_processing.py` lines 74-91): find the first stored segment meeting both
thresholds, replace it by the averaged segment, and stop (`break`); `none`
when no stored segment matches (`merged` stays `False`). -/
noncomputable def scanMerge (cond : Seg → Seg → Prop) (c : Seg) :
    List Seg → Option (List Seg)
  | [] => none
  | m :: rest =>
    if cond c m then some (mergeSeg c m :: rest)
    else (scanMerge cond c rest).map (fun r => m :: r)

open Classical in
/-- The outer `for line in lines` loop (`post_processing.py` lines 71-93):
each candidate either replaces the first stored segment it matches
(`scanMerge` returns `some`) or is appended to the accumulator. -/
noncomputable def mergeLoop (cond : Seg → Seg → Prop) :
    List Seg → List Seg → List Seg
  | acc, [] => acc
  | acc, c :: cs =>
    match scanMerge cond c acc with
    | some acc2 => mergeLoop cond acc2 cs
    | none => mergeLoop cond (acc ++ [c]) cs

/-- `merge_nearby_lines` (`post_processing.py` lines 54-95).  `none` models the
Python `None` that the Hough wrapper returns when nothing was detected; the
source returns `None` for it unchanged (line 67), otherwise it runs the greedy
merge loop starting from an empty accumulator and returns
`np.array(merged_lines)`.  In the source the accumulator holds aliases of the
input rows; the return VALUE is nevertheless the one computed here, because a
candidate row is read before any stored row with the same index can be
overwritten (the aliasing side effect itself is modelled by
`merge_nearby_lines_store` below). -/
noncomputable def merge_nearby_lines (prox angleThr : ℝ) :
    Option (List Seg) → Option (List Seg)
  | none => none
  | some ls => some (mergeLoop (mergeCond prox angleThr) [] ls)

/-! ### Aliasing-aware model of the merge loop

In the source, `merged_lines` stores the rows of the caller's numpy array
(`merged_lines.append(line)` at line 93 appends the row view `line`), and the
assignment `m_line[0] = [new_x1, new_y1, new_x2, new_y2]` at line 89 writes
through that alias into the caller's array.  The model below carries the
backing store explicitly and records every such write. -/

/-- One in-place assignment `m_line[0] = [...]` through an alias into row
`idx` of the caller's array (`post_processing.py` line 89). -/
structure RowWrite where
  idx : Nat
  val : Seg
deriving DecidableEq, Repr

/-- Execution state of `merge_nearby_lines` over the caller's array: `store`
is the current contents of the input array's rows, `mergedIdx` the indices of
the rows aliased by `merged_lines`, and `writes` the log of in-place
assignments performed so far. -/
structure MergeState where
  store : List Seg
  mergedIdx : List Nat
  writes : List RowWrite
deriving Repr

/-- Current value of row `i` of the array. -/
def getRow (st : List Seg) (i : Nat) : Seg := st.getD i ⟨0, 0, 0, 0⟩

open Classical in
/-- The inner scan of `post_processing.py` lines 74-91 over the aliased rows:
reading `m_line[0]` reads the row's current value from the store, and a merge
assigns the averaged row back through the alias (recorded in `writes`). -/
noncomputable def scanMergeStore (cond : Seg → Seg → Prop) (ci : Nat)
    (st : MergeState) : List Nat → Option MergeState
  | [] => none
  | j :: rest =>
    if cond (getRow st.store ci) (getRow st.store j) then
      some { st with
        store := st.store.set j (mergeSeg (getRow st.store ci) (getRow st.store j)),
        writes := st.writes ++ [⟨j, mergeSeg (getRow st.store ci) (getRow st.store j)⟩] }
    else scanMergeStore cond ci st rest

open Classical in
/-- The outer loop of `post_processing.py` lines 71-93 over the aliased rows:
candidates are the row indices in order. -/
noncomputable def mergeLoopStore (cond : Seg → Seg → Prop) :
    MergeState → List Nat → MergeState
  | st, [] => st
  | st, ci :: cis =>
    match scanMergeStore cond ci st st.mergedIdx with
    | some st2 => mergeLoopStore cond st2 cis
    | none => mergeLoopStore cond { st with mergedIdx := st.mergedIdx ++ [ci] } cis

/-- `merge_nearby_lines` with the caller's array made explicit: the final
state after processing all rows of `lines` in order. -/
noncomputable def merge_nearby_lines_store (cond : Seg → Seg → Prop)
    (lines : List Seg) : MergeState :=
  mergeLoopStore cond ⟨lines, [], []⟩ (List.range lines.length)

/-! ### Raster grids, the skeletonizer, and the Hough detector -/

/-- A raster image: a matrix of pixel values, row major; `0` is background.
Masks are taken after `mask.squeeze()` (`post_processing.py` line 26), which
turns the documented `(H, W, 1)` input into an `(H, W)` grid; the
`astype(np.uint8)` cast is the identity on the `{0, 1}` values involved. -/
abbrev Grid := List (List Nat)

/-- Number of foreground (nonzero) pixels of a grid. -/
def foregroundCount (g : Grid) : Nat :=
  (g.map (fun row => row.countP (fun v => v ≠ 0))).sum

/-- Row lengths of a grid: its shape. -/
def gridShape (g : Grid) : List Nat := g.map List.length

/-- Pixel access with `0` (background) outside the image, matching the zero
padding `skimage.morphology.binary_dilation` uses at the border. -/
def pixel (g : Grid) (i j : Int) : Nat :=
  if 0 ≤ i ∧ 0 ≤ j then (g.getD i.toNat []).getD j.toNat 0 else 0

/-- `binary_dilation(skeleton, disk(1))` (`post_processing.py` line 31):
`disk(1)` is the 3x3 cross of offsets at Euclidean distance at most 1, so an
output pixel is foreground iff the pixel itself or one of its 4-neighbours is
foreground in the input. -/
def binary_dilation_disk1 (g : Grid) : Grid :=
  (List.range g.length).map fun (i : Nat) =>
    (List.range ((g.getD i []).length)).map fun (j : Nat) =>
      if pixel g (i : Int) (j : Int) ≠ 0 ∨
         pixel g ((i : Int) - 1) (j : Int) ≠ 0 ∨
         pixel g ((i : Int) + 1) (j : Int) ≠ 0 ∨
         pixel g (i : Int) ((j : Int) - 1) ≠ 0 ∨
         pixel g (i : Int) ((j : Int) + 1) ≠ 0 then 1 else 0

/-- Interface model of `skimage.morphology.skeletonize` (an external library
routine, not code of this repository): a total transform of 2D grids that
preserves the image shape.  Nothing else about the thinning algorithm is
needed by the claims below, so theorems quantify over every such core. -/
structure ThinCore where
  thin : Grid → Grid
  shape_eq : ∀ g : Grid, gridShape (thin g) = gridShape g

/-- `post_process_mask` (`post_processing.py` lines 15-32): squeeze, cast to
`uint8`, skeletonize, dilate by `disk(1)`.  The source performs NO validation
of the mask dimensions — there is no shape check, no exception raised by this
module's code, and no report-and-skip path — so the embedding is a total
function on grids. -/
def post_process_mask (core : ThinCore) (mask : Grid) : Grid :=
  binary_dilation_disk1 (core.thin mask)

/-- Modelled from the spec: the "expected square single-channel shape"
(spec section 3: "fixed square dimension (e.g., 160x160)"; single-channel is
absorbed by the squeeze).  A 2D grid is valid iff it is square. -/
def validMaskShape (g : Grid) : Bool :=
  g.all (fun row => row.length = g.length)

/-- Modelled from the spec: the skeletonizer that claim C6 describes, which
rejects a mask of invalid dimensions ("InputShapeError — mask dimensions
invalid, fatal per-sample", spec section 7) and otherwise applies the pure
transform.  Stated only to compare with `post_process_mask`, the embedding of
the code, which has no such rejection path. -/
def post_process_mask_spec (core : ThinCore) (mask : Grid) : Except String Grid :=
  if validMaskShape mask then .ok (post_process_mask core mask)
  else .error "InputShapeError"

/-- Interface model of `cv2.HoughLinesP` (OpenCV, external to this
repository).  `detect` is the detection core; `min_votes` is the one
documented property used below: every vote in an accumulator cell is cast by
a distinct foreground pixel of the input and a segment is reported only when
its cell reaches the vote threshold — the source passes `threshold=30`
(`post_processing.py` line 48) — so any report requires at least 30
foreground pixels. -/
structure HoughCore where
  detect : Grid → List Seg
  min_votes : ∀ g : Grid, detect g ≠ [] → 30 ≤ foregroundCount g

/-- The Python binding of `cv2.HoughLinesP` returns `None` — not an empty
array — when no segment reaches the threshold; the repository itself
documents this (`post_processing.py` line 42: "or None if no lines detected")
and consumes the `None` at line 67. -/
def houghLinesP (core : HoughCore) (img : Grid) : Option (List Seg) :=
  match core.detect img with
  | [] => none
  | s :: rest => some (s :: rest)

/-- `detect_lines_skeleton` (`post_processing.py` lines 34-52): a direct
wrapper around `cv2.HoughLinesP` with fixed parameters (`threshold=30`,
`minLineLength=2`, `maxLineGap=3`); whatever the transform returns is
returned unchanged. -/
def detect_lines_skeleton (core : HoughCore) (skeleton : Grid) : Option (List Seg) :=
  houghLinesP core skeleton

/-! ### The SVG exporter -/

/-- The names bound at module level in `post_processing.py`: its imports
(lines 9-13) and its own top-level function definitions.  `os` is absent —
the module never imports it. -/
def moduleGlobals : List String :=
  ["np", "cv2", "skeletonize", "binary_dilation", "disk",
   "remove_small_objects", "binary_closing", "svgwrite",
   "post_process_mask", "detect_lines_skeleton", "merge_nearby_lines",
   "refine_and_save_as_svg", "debug_detected_lines"]

/-- A Python runtime error raised by the module. -/
inductive PyRuntimeError where
  | nameError (missing : String)
deriving DecidableEq, Repr

/-- Left zero-padding, as in the format specifier `{i:03d}`. -/
def padZeroes (width : Nat) (s : String) : String :=
  String.mk (List.replicate (width - s.length) '0') ++ s

/-- The file name `f"sample_{i:03d}.svg"` (`post_processing.py` line 119). -/
def sampleFilename (i : Nat) : String :=
  "sample_" ++ padZeroes 3 (toString i) ++ ".svg"

/-- `os.path.join` on POSIX (`post_processing.py` line 120). -/
def pathJoin (dir file : String) : String := dir ++ "/" ++ file

open Classical in
/-- The per-sample loop of `refine_and_save_as_svg` (`post_processing.py`
lines 112-134): for each mask, skeletonize, detect, merge with the default
thresholds; a file is written exactly when the merged result is not `None`
(`if filtered_lines is not None`, line 117), otherwise the sample is skipped
with a printed message.  The value is the list of paths written, in order. -/
noncomputable def refineLoop (thin : ThinCore) (hough : HoughCore)
    (dir : String) (pred_masks : List Grid) : List String :=
  pred_masks.enum.filterMap fun p =>
    match merge_nearby_lines 10 5
        (detect_lines_skeleton hough (post_process_mask thin p.2)) with
    | some _ => some (pathJoin dir (sampleFilename p.1))
    | none => none

open Classical in
/-- `refine_and_save_as_svg` (`post_processing.py` lines 97-134).  Executing
the function's first statement, `if not os.path.exists(svg_output_dir)`
(line 109), resolves the global name `os`; `moduleGlobals` does not bind it,
so Python raises `NameError` (name `os` is not defined) before any directory
or file is created.  On the success path — unreachable for this module — the
function would return the list of SVG paths written. -/
noncomputable def refine_and_save_as_svg (thin : ThinCore) (hough : HoughCore)
    (pred_masks : List Grid) (svg_output_dir : String) :
    Except PyRuntimeError (List String) :=
  if "os" ∈ moduleGlobals then
    .ok (refineLoop thin hough svg_output_dir pred_masks)
  else .error (.nameError "os")

/-! ### Concrete instances used by witnesses and counterexamples -/

/-- Horizontal candidate segment starting at `x = 0`. -/
def segA : Seg := ⟨0, 0, 100, 0⟩

/-- Horizontal candidate segment starting at `x = 13`. -/
def segB : Seg := ⟨13, 0, 113, 0⟩

/-- Horizontal candidate segment starting at `x = 9`. -/
def segC : Seg := ⟨9, 0, 109, 0⟩

/-- Reversal of a segment: the same physical line with the endpoints listed
in the opposite order. -/
def segRev (s : Seg) : Seg := ⟨s.x2, s.y2, s.x1, s.y1⟩

/-- Nearly horizontal segment pointing left and slightly up: its direction
angle lies just below `+180` degrees. -/
def segP : Seg := ⟨0, 0, -100, 1⟩

/-- Nearly horizontal segment pointing left and slightly down: its direction
angle lies just above `-180` degrees. -/
def segQ : Seg := ⟨0, 0, -100, -1⟩

/-- The all-zero (entirely background) square grid of side `n`. -/
def zeroGrid (n : Nat) : Grid := List.replicate n (List.replicate n 0)

/-- A Hough core that never reports a segment; it trivially satisfies the
vote bound.  Used to instantiate theorems that hold for every core. -/
def emptyHough : HoughCore := ⟨fun _ => [], fun _ h => absurd rfl h⟩

/-- A thinning core given by the identity; it trivially preserves shapes.
Used to instantiate theorems that hold for every core. -/
def idThin : ThinCore := ⟨id, fun _ => rfl⟩

/-- A 3-row, 5-column mask (one vertical stroke): NOT of the expected square
shape. -/
def mask35 : Grid := [[0, 0, 1, 0, 0], [0, 0, 1, 0, 0], [0, 0, 1, 0, 0]]

/-! ### Helper lemmas about the merge condition -/

lemma distSq_nonneg (c m : Seg) : 0 ≤ distSq c m := by
  have h1 : (0 : Int) ≤ (c.x1 - m.x1) ^ 2 := sq_nonneg _
  have h2 : (0 : Int) ≤ (c.y1 - m.y1) ^ 2 := sq_nonneg _
  simpa [distSq] using add_nonneg h1 h2

lemma mergeCond_intro {p T : ℝ} {c m : Seg} (hp : 0 < p)
    (h1 : ((distSq c m : Int) : ℝ) < p ^ 2) (h2 : angleDiffDeg c m < T) :
    mergeCond p T c m :=
  ⟨(Real.sqrt_lt' hp).mpr h1, h2⟩

lemma not_mergeCond_dist {p T : ℝ} {c m : Seg} (hp : 0 ≤ p)
    (h : p ^ 2 ≤ ((distSq c m : Int) : ℝ)) : ¬ mergeCond p T c m := by
  intro hc
  have hd : (0 : ℝ) ≤ ((distSq c m : Int) : ℝ) := by
    exact_mod_cast distSq_nonneg c m
  have := (Real.le_sqrt hp hd).mpr h
  exact absurd hc.1 (not_lt.mpr this)

lemma not_mergeCond_angle {p T : ℝ} {c m : Seg}
    (h : T ≤ angleDiffDeg c m) : ¬ mergeCond p T c m :=
  fun hc => absurd hc.2 (not_lt.mpr h)

lemma not_mergeCond_of_nonpos {p T : ℝ} {c m : Seg} (hp : p ≤ 0) :
    ¬ mergeCond p T c m :=
  fun hc => absurd hc.1 (not_lt.mpr (le_trans hp (Real.sqrt_nonneg _)))

lemma distSq_comm (c m : Seg) : distSq c m = distSq m c := by
  unfold distSq; ring

lemma startDistance_comm (c m : Seg) : startDistance c m = startDistance m c := by
  unfold startDistance; rw [distSq_comm]

lemma angleDiffDeg_comm (c m : Seg) : angleDiffDeg c m = angleDiffDeg m c := by
  unfold angleDiffDeg; rw [abs_sub_comm]

lemma segAngle_horiz (s : Seg) (hy : s.y2 = s.y1) (hx : s.x1 < s.x2) :
    segAngle s = 0 := by
  have hxp : (0 : ℝ) < ((s.x2 - s.x1 : Int) : ℝ) := by
    have : (0 : Int) < s.x2 - s.x1 := by omega
    exact_mod_cast this
  have hy0 : ((s.y2 - s.y1 : Int) : ℝ) = 0 := by
    have : s.y2 - s.y1 = (0 : Int) := by omega
    simp [this]
  rw [segAngle, hy0, arctan2, if_pos hxp]
  simp [Real.arctan_zero]

lemma angleDiffDeg_eq_zero {c m : Seg} (h : segAngle c = segAngle m) :
    angleDiffDeg c m = 0 := by
  simp [angleDiffDeg, h]

/-- Twice the truncated half of `a` is within one of `a`. -/
lemma pyint_half_twice (a : Int) : |2 * pyint_half a - a| ≤ 1 := by
  rw [abs_le]
  unfold pyint_half
  split <;> constructor <;> omega

/-- `int((a) / 2)` is an integer nearest to the exact midpoint `a / 2`:
their distance is at most `1 / 2`. -/
lemma pyint_half_close (a : Int) :
    |((pyint_half a : Int) : ℝ) - (a : ℝ) / 2| ≤ 1 / 2 := by
  have h : |2 * pyint_half a - a| ≤ 1 := pyint_half_twice a
  have h2 : |2 * ((pyint_half a : Int) : ℝ) - (a : ℝ)| ≤ 1 := by exact_mod_cast h
  have h3 : ((pyint_half a : Int) : ℝ) - (a : ℝ) / 2
      = (2 * ((pyint_half a : Int) : ℝ) - (a : ℝ)) / 2 := by ring
  rw [h3, abs_div, abs_two]
  linarith [h2]

/-! ### Helper lemmas about `arctan2` -/

/-- Negating both components of a nonzero vector moves its `arctan2` angle by
exactly `pi` in absolute value. -/
lemma arctan2_neg_neg (y x : ℝ) (h : x ≠ 0 ∨ y ≠ 0) :
    |arctan2 (-y) (-x) - arctan2 y x| = Real.pi := by
  have hpi : (0 : ℝ) ≤ Real.pi := Real.pi_pos.le
  have hdiv : (-y) / (-x) = y / x := by rw [neg_div_neg_eq]
  simp only [arctan2]
  rcases lt_trichotomy x 0 with hx | hx | hx
  · rw [if_pos (by linarith : (0 : ℝ) < -x), hdiv,
      if_neg (by linarith : ¬ (0 : ℝ) < x), if_pos hx]
    by_cases hy : 0 ≤ y
    · rw [if_pos hy]
      have he : Real.arctan (y / x) - (Real.arctan (y / x) + Real.pi)
          = -Real.pi := by ring
      rw [he, abs_neg, abs_of_nonneg hpi]
    · rw [if_neg hy]
      have he : Real.arctan (y / x) - (Real.arctan (y / x) - Real.pi)
          = Real.pi := by ring
      rw [he, abs_of_nonneg hpi]
  · subst hx
    have hy : y ≠ 0 := by
      rcases h with h | h
      · exact absurd rfl h
      · exact h
    rw [if_neg (by simp : ¬ (0 : ℝ) < -0), if_neg (by simp : ¬ (-0 : ℝ) < 0),
      if_neg (lt_irrefl (0 : ℝ)), if_neg (lt_irrefl (0 : ℝ))]
    rcases lt_or_gt_of_ne hy with hy2 | hy2
    · rw [if_pos (by linarith : (0 : ℝ) < -y),
        if_neg (by linarith : ¬ (0 : ℝ) < y), if_pos hy2]
      have he : Real.pi / 2 - -(Real.pi / 2) = Real.pi := by ring
      rw [he, abs_of_nonneg hpi]
    · rw [if_neg (by linarith : ¬ (0 : ℝ) < -y),
        if_pos (by linarith : -y < (0 : ℝ)), if_pos hy2]
      have he : -(Real.pi / 2) - Real.pi / 2 = -Real.pi := by ring
      rw [he, abs_neg, abs_of_nonneg hpi]
  · rw [if_neg (by linarith : ¬ (0 : ℝ) < -x),
      if_pos (by linarith : -x < (0 : ℝ)), hdiv, if_pos hx]
    by_cases hy : 0 ≤ -y
    · rw [if_pos hy]
      have he : Real.arctan (y / x) + Real.pi - Real.arctan (y / x)
          = Real.pi := by ring
      rw [he, abs_of_nonneg hpi]
    · rw [if_neg hy]
      have he : Real.arctan (y / x) - Real.pi - Real.arctan (y / x)
          = -Real.pi := by ring
      rw [he, abs_neg, abs_of_nonneg hpi]

/-- `arctan` is below the identity on the nonnegative reals. -/
lemma arctan_le_of_nonneg {y : ℝ} (h : 0 ≤ y) : Real.arctan y ≤ y := by
  have h1 := Real.tan_arctan y
  have h2 : 0 ≤ Real.arctan y := by
    have := Real.arctan_strictMono.monotone h
    simpa [Real.arctan_zero] using this
  have h3 := Real.le_tan h2 (Real.arctan_lt_pi_div_two y)
  rw [h1] at h3
  exact h3

/-- Reversing the endpoint order of a nondegenerate segment changes its raw
`arctan2` direction angle by exactly `pi` in absolute value. -/
lemma segAngle_rev_abs (s : Seg) (h : s.x1 ≠ s.x2 ∨ s.y1 ≠ s.y2) :
    |segAngle (segRev s) - segAngle s| = Real.pi := by
  have hx : ((s.x1 - s.x2 : Int) : ℝ) = -((s.x2 - s.x1 : Int) : ℝ) := by
    push_cast; ring
  have hy : ((s.y1 - s.y2 : Int) : ℝ) = -((s.y2 - s.y1 : Int) : ℝ) := by
    push_cast; ring
  have hnz : ((s.x2 - s.x1 : Int) : ℝ) ≠ 0 ∨ ((s.y2 - s.y1 : Int) : ℝ) ≠ 0 := by
    rcases h with h | h
    · left
      intro hc
      have : (s.x2 - s.x1 : Int) = 0 := by exact_mod_cast hc
      omega
    · right
      intro hc
      have : (s.y2 - s.y1 : Int) = 0 := by exact_mod_cast hc
      omega
  have := arctan2_neg_neg ((s.y2 - s.y1 : Int) : ℝ) ((s.x2 - s.x1 : Int) : ℝ) hnz
  simpa [segAngle, segRev, hx, hy] using this

/-- The raw degree difference the merger computes between a segment and its
reversal is exactly `180`. -/
lemma angleDiffDeg_rev (s : Seg) (h : s.x1 ≠ s.x2 ∨ s.y1 ≠ s.y2) :
    angleDiffDeg (segRev s) s = 180 := by
  rw [angleDiffDeg, segAngle_rev_abs s h, mul_comm, mul_div_assoc,
    div_self Real.pi_ne_zero, mul_one]

/-! ### Helper lemmas about the merge loop -/

lemma scanMerge_eq_none {cond : Seg → Seg → Prop} {c : Seg}
    (h : ∀ m, ¬ cond c m) : ∀ L, scanMerge cond c L = none := by
  intro L
  induction L with
  | nil => rfl
  | cons m rest ih => rw [scanMerge, if_neg (h m), ih]; rfl

lemma scanMerge_length {cond : Seg → Seg → Prop} {c : Seg} :
    ∀ {L R : List Seg}, scanMerge cond c L = some R → R.length = L.length := by
  intro L
  induction L with
  | nil => intro R h; simp [scanMerge] at h
  | cons m rest ih =>
    intro R h
    rw [scanMerge] at h
    by_cases hc : cond c m
    · rw [if_pos hc] at h
      cases h
      simp
    · rw [if_neg hc] at h
      cases hR : scanMerge cond c rest with
      | none => rw [hR] at h; simp at h
      | some r =>
        rw [hR] at h
        simp at h
        subst h
        simp [ih hR]

lemma mergeLoop_of_no_cond {cond : Seg → Seg → Prop}
    (h : ∀ c m, ¬ cond c m) :
    ∀ (cs acc : List Seg), mergeLoop cond acc cs = acc ++ cs := by
  intro cs
  induction cs with
  | nil => intro acc; rw [mergeLoop, List.append_nil]
  | cons c rest ih =>
    intro acc
    rw [mergeLoop, scanMerge_eq_none (h c), ih, List.append_assoc,
      List.singleton_append]

lemma merge_two_of_cond {p T : ℝ} {s t : Seg} (h : mergeCond p T t s) :
    merge_nearby_lines p T (some [s, t]) = some [mergeSeg t s] := by
  have e1 : scanMerge (mergeCond p T) s [] = none := rfl
  have e2 : scanMerge (mergeCond p T) t [s] = some [mergeSeg t s] := by
    rw [scanMerge, if_pos h]
  simp only [merge_nearby_lines, mergeLoop, e1, e2, List.nil_append]

lemma merge_two_of_not_cond {p T : ℝ} {s t : Seg} (h : ¬ mergeCond p T t s) :
    merge_nearby_lines p T (some [s, t]) = some [s, t] := by
  have e1 : scanMerge (mergeCond p T) s [] = none := rfl
  have e2 : scanMerge (mergeCond p T) t [s] = none := by
    rw [scanMerge, if_neg h]
    rfl
  simp only [merge_nearby_lines, mergeLoop, e1, e2, List.nil_append,
    List.singleton_append, List.cons_append]

lemma mergeLoop_length_le (cond : Seg → Seg → Prop) :
    ∀ (cs acc : List Seg),
      (mergeLoop cond acc cs).length ≤ acc.length + cs.length := by
  intro cs
  induction cs with
  | nil => intro acc; rw [mergeLoop]; simp
  | cons c rest ih =>
    intro acc
    rw [mergeLoop]
    cases hs : scanMerge cond c acc with
    | some acc2 =>
      have hlen := scanMerge_length hs
      have := ih acc2
      simp only [List.length_cons]
      omega
    | none =>
      have h2 := ih (acc ++ [c])
      simp only [List.length_append, List.length_cons, List.length_nil] at h2 ⊢
      omega

/-! ### Facts about the concrete segments -/

lemma segAngle_segA : segAngle segA = 0 :=
  segAngle_horiz _ (by decide) (by decide)

lemma segAngle_segB : segAngle segB = 0 :=
  segAngle_horiz _ (by decide) (by decide)

lemma segAngle_segC : segAngle segC = 0 :=
  segAngle_horiz _ (by decide) (by decide)

lemma not_cond_segB_segA : ¬ mergeCond 10 5 segB segA := by
  apply not_mergeCond_dist (by norm_num)
  have h : distSq segB segA = 169 := by decide
  rw [h]; norm_num

lemma cond_segC_segA : mergeCond 10 5 segC segA := by
  apply mergeCond_intro (by norm_num)
  · have h : distSq segC segA = 81 := by decide
    rw [h]; norm_num
  · rw [angleDiffDeg_eq_zero (by rw [segAngle_segC, segAngle_segA])]
    norm_num

lemma segAngle_segACmerged : segAngle (⟨4, 0, 104, 0⟩ : Seg) = 0 :=
  segAngle_horiz _ (by decide) (by decide)

lemma cond_segB_segACmerged : mergeCond 10 5 segB ⟨4, 0, 104, 0⟩ := by
  apply mergeCond_intro (by norm_num)
  · have h : distSq segB ⟨4, 0, 104, 0⟩ = 81 := by decide
    rw [h]; norm_num
  · rw [angleDiffDeg_eq_zero (by rw [segAngle_segB, segAngle_segACmerged])]
    norm_num

/-- A second horizontal candidate 3 pixels from `segA`, inside the default
thresholds. -/
def segT : Seg := ⟨3, 0, 103, 0⟩

lemma segAngle_segT : segAngle segT = 0 :=
  segAngle_horiz _ (by decide) (by decide)

lemma startDistance_segA_segT : startDistance segA segT < 10 := by
  have h : distSq segA segT = 9 := by decide
  have h9 : ((9 : Int) : ℝ) = 9 := by norm_num
  rw [startDistance, h, h9]
  exact (Real.sqrt_lt' (by norm_num)).mpr (by norm_num)

lemma angleDiffDeg_segA_segT : angleDiffDeg segA segT < 5 := by
  rw [angleDiffDeg_eq_zero (by rw [segAngle_segA, segAngle_segT])]
  norm_num

/-! ### Facts about the branch-cut pair `segP`, `segQ` -/

lemma segAngle_segP : segAngle segP = Real.pi - Real.arctan (1 / 100) := by
  have e1 : ((segP.y2 - segP.y1 : Int) : ℝ) = 1 := by norm_num [segP]
  have e2 : ((segP.x2 - segP.x1 : Int) : ℝ) = -100 := by norm_num [segP]
  rw [segAngle, e1, e2, arctan2,
    if_neg (by norm_num : ¬ (0 : ℝ) < -100),
    if_pos (by norm_num : (-100 : ℝ) < 0),
    if_pos (by norm_num : (0 : ℝ) ≤ 1)]
  have e3 : (1 : ℝ) / (-100) = -(1 / 100) := by norm_num
  rw [e3, Real.arctan_neg]
  ring

lemma segAngle_segQ : segAngle segQ = Real.arctan (1 / 100) - Real.pi := by
  have e1 : ((segQ.y2 - segQ.y1 : Int) : ℝ) = -1 := by norm_num [segQ]
  have e2 : ((segQ.x2 - segQ.x1 : Int) : ℝ) = -100 := by norm_num [segQ]
  rw [segAngle, e1, e2, arctan2,
    if_neg (by norm_num : ¬ (0 : ℝ) < -100),
    if_pos (by norm_num : (-100 : ℝ) < 0),
    if_neg (by norm_num : ¬ (0 : ℝ) ≤ -1)]
  have e3 : (-1 : ℝ) / (-100) = 1 / 100 := by norm_num
  rw [e3]

lemma angleDiffDeg_segP_segQ : angleDiffDeg segP segQ
    = (2 * Real.pi - 2 * Real.arctan (1 / 100)) * 180 / Real.pi := by
  have ha : Real.arctan (1 / 100) < Real.pi / 2 := Real.arctan_lt_pi_div_two _
  have hp : (0 : ℝ) < Real.pi := Real.pi_pos
  rw [angleDiffDeg, segAngle_segP, segAngle_segQ]
  have he : Real.pi - Real.arctan (1 / 100) - (Real.arctan (1 / 100) - Real.pi)
      = 2 * Real.pi - 2 * Real.arctan (1 / 100) := by ring
  rw [he, abs_of_nonneg (by linarith)]

lemma angleDiffDeg_segP_segQ_gt : 355 < angleDiffDeg segP segQ := by
  rw [angleDiffDeg_segP_segQ, lt_div_iff₀ Real.pi_pos]
  have ha : Real.arctan (1 / 100) ≤ 1 / 100 := arctan_le_of_nonneg (by norm_num)
  have hp : 3 < Real.pi := Real.pi_gt_three
  nlinarith

/-! ### Claim theorems for the merger -/

/-- C1 counterexample: the merger is NOT idempotent on its own output, and its
output is NOT free of near-duplicates.  On the candidates
`[segA, segB, segC] = [(0,0,100,0), (13,0,113,0), (9,0,109,0)]` with the
default thresholds, one run merges `segC` into `segA` and yields the two
segments `[(4,0,104,0), segB]`; the merge moved the stored segment to 9 px of
`segB` with an equal angle, so the two output segments satisfy the merge
condition, and a second run with the same thresholds reduces them to one. -/
theorem merge_not_idempotent_cex :
    merge_nearby_lines 10 5 (some [segA, segB, segC])
        = some [⟨4, 0, 104, 0⟩, segB] ∧
    mergeCond 10 5 segB ⟨4, 0, 104, 0⟩ ∧
    merge_nearby_lines 10 5 (some [⟨4, 0, 104, 0⟩, segB])
        = some [⟨8, 0, 108, 0⟩] := by
  refine ⟨?_, cond_segB_segACmerged, ?_⟩
  · have e1 : scanMerge (mergeCond 10 5) segA [] = none := rfl
    have e2 : scanMerge (mergeCond 10 5) segB [segA] = none := by
      rw [scanMerge, if_neg not_cond_segB_segA]
      rfl
    have e3 : scanMerge (mergeCond 10 5) segC [segA, segB]
        = some [⟨4, 0, 104, 0⟩, segB] := by
      rw [scanMerge, if_pos cond_segC_segA]
      have h : mergeSeg segC segA = ⟨4, 0, 104, 0⟩ := by decide
      rw [h]
    simp only [merge_nearby_lines, mergeLoop, e1, e2, e3, List.nil_append,
      List.cons_append, List.singleton_append]
  · have h := merge_two_of_cond cond_segB_segACmerged
    have h2 : mergeSeg segB ⟨4, 0, 104, 0⟩ = ⟨8, 0, 108, 0⟩ := by decide
    rw [h2] at h
    exact h

/-- C1 (amended): a single pass of the merger never increases the segment
count, and re-running it on its own output never increases the count further;
strict idempotence and the absence of near-duplicate output pairs fail (see
the counterexample). -/
theorem merge_rerun_length_le (p T : ℝ) (ls : List Seg) :
    ∃ out out2 : List Seg,
      merge_nearby_lines p T (some ls) = some out ∧
      merge_nearby_lines p T (some out) = some out2 ∧
      out.length ≤ ls.length ∧ out2.length ≤ out.length := by
  refine ⟨mergeLoop (mergeCond p T) [] ls,
    mergeLoop (mergeCond p T) [] (mergeLoop (mergeCond p T) [] ls),
    rfl, rfl, ?_, ?_⟩
  · simpa using mergeLoop_length_le (mergeCond p T) ls []
  · simpa using mergeLoop_length_le (mergeCond p T)
      (mergeLoop (mergeCond p T) [] ls) []

/-- C2: two candidate segments whose start points are within the proximity
threshold and whose raw direction angles are within the angle threshold merge
into exactly one segment, each of whose four coordinates is an integer
nearest to the coordinate-wise midpoint of the two inputs (within 1/2 of the
exact midpoint; the `int()` of the source truncates the half-integer tie
toward zero). -/
theorem merge_two_within_thresholds (p T : ℝ) (s t : Seg)
    (h1 : startDistance s t < p) (h2 : angleDiffDeg s t < T) :
    merge_nearby_lines p T (some [s, t]) = some [mergeSeg t s] ∧
    |((mergeSeg t s).x1 : ℝ) - ((s.x1 : ℝ) + (t.x1 : ℝ)) / 2| ≤ 1 / 2 ∧
    |((mergeSeg t s).y1 : ℝ) - ((s.y1 : ℝ) + (t.y1 : ℝ)) / 2| ≤ 1 / 2 ∧
    |((mergeSeg t s).x2 : ℝ) - ((s.x2 : ℝ) + (t.x2 : ℝ)) / 2| ≤ 1 / 2 ∧
    |((mergeSeg t s).y2 : ℝ) - ((s.y2 : ℝ) + (t.y2 : ℝ)) / 2| ≤ 1 / 2 := by
  have hc : mergeCond p T t s := by
    constructor
    · rw [startDistance_comm]
      exact h1
    · rw [angleDiffDeg_comm]
      exact h2
  refine ⟨merge_two_of_cond hc, ?_, ?_, ?_, ?_⟩
  · have hb := pyint_half_close (t.x1 + s.x1)
    have he : ((t.x1 + s.x1 : Int) : ℝ) = (s.x1 : ℝ) + (t.x1 : ℝ) := by
      push_cast; ring
    rw [he] at hb
    simpa [mergeSeg] using hb
  · have hb := pyint_half_close (t.y1 + s.y1)
    have he : ((t.y1 + s.y1 : Int) : ℝ) = (s.y1 : ℝ) + (t.y1 : ℝ) := by
      push_cast; ring
    rw [he] at hb
    simpa [mergeSeg] using hb
  · have hb := pyint_half_close (t.x2 + s.x2)
    have he : ((t.x2 + s.x2 : Int) : ℝ) = (s.x2 : ℝ) + (t.x2 : ℝ) := by
      push_cast; ring
    rw [he] at hb
    simpa [mergeSeg] using hb
  · have hb := pyint_half_close (t.y2 + s.y2)
    have he : ((t.y2 + s.y2 : Int) : ℝ) = (s.y2 : ℝ) + (t.y2 : ℝ) := by
      push_cast; ring
    rw [he] at hb
    simpa [mergeSeg] using hb

/-- C2 witness: the hypotheses of `merge_two_within_thresholds` hold for the
concrete pair `segA = (0,0,100,0)`, `segT = (3,0,103,0)` (start points 3 px
apart, equal angles) and the two candidates merge into one segment. -/
theorem merge_two_within_thresholds_witness :
    startDistance segA segT < 10 ∧ angleDiffDeg segA segT < 5 ∧
    merge_nearby_lines 10 5 (some [segA, segT]) = some [mergeSeg segT segA] :=
  ⟨startDistance_segA_segT, angleDiffDeg_segA_segT,
    (merge_two_within_thresholds 10 5 segA segT
      startDistance_segA_segT angleDiffDeg_segA_segT).1⟩

/-- C7: a `None` candidate input returns `None` and an empty candidate list
returns an empty result, without error, for every pair of thresholds. -/
theorem merge_none_and_empty (p T : ℝ) :
    merge_nearby_lines p T none = none ∧
    merge_nearby_lines p T (some []) = some [] :=
  ⟨rfl, rfl⟩

/-- C8: with `proximity_threshold = 0` the distance test
`np.sqrt(...) < 0` can never hold, so every candidate is appended unchanged:
the merger returns the candidate list itself, in order, with no merges. -/
theorem merge_prox_zero_identity (T : ℝ) (ls : List Seg) :
    merge_nearby_lines 0 T (some ls) = some ls := by
  have h : ∀ c m : Seg, ¬ mergeCond (0 : ℝ) T c m := fun c m =>
    not_mergeCond_of_nonpos le_rfl
  simp only [merge_nearby_lines, mergeLoop_of_no_cond h, List.nil_append]

/-- C10: the merger's angle difference is the raw absolute difference of the
two `arctan2` direction angles, not an orientation difference.  For every
nondegenerate segment, the raw difference between the segment and its
endpoint-reversal is exactly 180 degrees, so the pair is never merged under
any angle threshold up to 180, whatever the proximity threshold (in
particular with coincident start points).  And for the nearly parallel pair
`segP`, `segQ`, whose angles straddle the 180-degree branch cut and whose
start points coincide, the raw difference exceeds 355 degrees (within 5
degrees of a full turn, so their orientations differ by less than 5 degrees)
and the pair is not merged under the default thresholds. -/
theorem merge_angle_unnormalized :
    (∀ (p T : ℝ) (s : Seg), s.x1 ≠ s.x2 ∨ s.y1 ≠ s.y2 → T ≤ 180 →
        angleDiffDeg (segRev s) s = 180 ∧
        merge_nearby_lines p T (some [s, segRev s]) = some [s, segRev s]) ∧
    355 < angleDiffDeg segP segQ ∧
    merge_nearby_lines 10 5 (some [segP, segQ]) = some [segP, segQ] := by
  refine ⟨?_, angleDiffDeg_segP_segQ_gt, ?_⟩
  · intro p T s h hT
    have h180 := angleDiffDeg_rev s h
    refine ⟨h180, merge_two_of_not_cond ?_⟩
    exact not_mergeCond_angle (by rw [h180]; exact hT)
  · refine merge_two_of_not_cond (not_mergeCond_angle ?_)
    rw [angleDiffDeg_comm]
    linarith [angleDiffDeg_segP_segQ_gt]

/-- C10 witness: instantiating at the concrete horizontal segment `segA` and
the default thresholds. -/
theorem merge_angle_unnormalized_witness :
    angleDiffDeg (segRev segA) segA = 180 ∧
    merge_nearby_lines 10 5 (some [segA, segRev segA])
      = some [segA, segRev segA] :=
  merge_angle_unnormalized.1 10 5 segA (Or.inl (by decide)) (by norm_num)

/-! ### Store-model lemmas -/

lemma scanMergeStore_some {cond : Seg → Seg → Prop} {ci : Nat} {st : MergeState} :
    ∀ {js : List Nat} {st2 : MergeState},
      scanMergeStore cond ci st js = some st2 →
      st2.mergedIdx = st.mergedIdx ∧ st2.store.length = st.store.length ∧
      ∃ j v, j ∈ js ∧ st2.writes = st.writes ++ [⟨j, v⟩] ∧
        st2.store = st.store.set j v := by
  intro js
  induction js with
  | nil => intro st2 h; simp [scanMergeStore] at h
  | cons j rest ih =>
    intro st2 h
    rw [scanMergeStore] at h
    by_cases hc : cond (getRow st.store ci) (getRow st.store j)
    · rw [if_pos hc] at h
      cases h
      refine ⟨rfl, by simp [List.length_set], j, _,
        List.mem_cons_self j rest, rfl, rfl⟩
    · rw [if_neg hc] at h
      obtain ⟨h1, h2, j2, v2, hj, hw, hs⟩ := ih h
      exact ⟨h1, h2, j2, v2, List.mem_cons_of_mem _ hj, hw, hs⟩

lemma mergeLoopStore_props (cond : Seg → Seg → Prop) :
    ∀ (cis : List Nat) (st : MergeState),
      (mergeLoopStore cond st cis).store.length = st.store.length ∧
      (mergeLoopStore cond st cis).mergedIdx.length
          + (mergeLoopStore cond st cis).writes.length
        = st.mergedIdx.length + st.writes.length + cis.length ∧
      (∃ t, (mergeLoopStore cond st cis).writes = st.writes ++ t) := by
  intro cis
  induction cis with
  | nil =>
    intro st
    exact ⟨rfl, by simp [mergeLoopStore], [], by simp [mergeLoopStore]⟩
  | cons ci rest ih =>
    intro st
    rw [mergeLoopStore]
    cases h : scanMergeStore cond ci st st.mergedIdx with
    | some st2 =>
      obtain ⟨hm, hl, j, v, hj, hw, hs⟩ := scanMergeStore_some h
      obtain ⟨ih1, ih2, t, ih3⟩ := ih st2
      refine ⟨by rw [ih1, hl], ?_, [⟨j, v⟩] ++ t, ?_⟩
      · rw [ih2, hm, hw]
        simp [List.length_append]
        omega
      · rw [ih3, hw, List.append_assoc]
    | none =>
      obtain ⟨ih1, ih2, t, ih3⟩ := ih { st with mergedIdx := st.mergedIdx ++ [ci] }
      refine ⟨ih1, ?_, t, ih3⟩
      · rw [ih2]
        simp [List.length_append]
        omega

lemma mergeLoopStore_store_of_no_writes (cond : Seg → Seg → Prop) :
    ∀ (cis : List Nat) (st : MergeState),
      (mergeLoopStore cond st cis).writes = st.writes →
      (mergeLoopStore cond st cis).store = st.store := by
  intro cis
  induction cis with
  | nil => intro st h; rfl
  | cons ci rest ih =>
    intro st h
    rw [mergeLoopStore] at h ⊢
    cases hs : scanMergeStore cond ci st st.mergedIdx with
    | some st2 =>
      rw [hs] at h
      have h2 : (mergeLoopStore cond st2 rest).writes = st.writes := h
      obtain ⟨hm, hl, j, v, hj, hw, hst⟩ := scanMergeStore_some hs
      obtain ⟨t, ht⟩ := (mergeLoopStore_props cond rest st2).2.2
      rw [ht, hw] at h2
      exfalso
      have hlen := congrArg List.length h2
      simp [List.length_append] at hlen
    | none =>
      rw [hs] at h
      have h2 : (mergeLoopStore cond
          { st with mergedIdx := st.mergedIdx ++ [ci] } rest).writes
          = st.writes := h
      show (mergeLoopStore cond
          { st with mergedIdx := st.mergedIdx ++ [ci] } rest).store = st.store
      exact ih _ h2

lemma mergeLoopStore_writes_lt (cond : Seg → Seg → Prop) (N : Nat) :
    ∀ (cis : List Nat) (st : MergeState),
      (∀ j ∈ st.mergedIdx, j < N) → (∀ w ∈ st.writes, w.idx < N) →
      (∀ ci ∈ cis, ci < N) →
      ∀ w ∈ (mergeLoopStore cond st cis).writes, w.idx < N := by
  intro cis
  induction cis with
  | nil => intro st _ hw _; exact hw
  | cons ci rest ih =>
    intro st hm hw hc
    rw [mergeLoopStore]
    cases hs : scanMergeStore cond ci st st.mergedIdx with
    | some st2 =>
      obtain ⟨hm2, _, j, v, hj, hw2, _⟩ := scanMergeStore_some hs
      apply ih st2
      · rw [hm2]; exact hm
      · intro w hwmem
        rw [hw2] at hwmem
        rcases List.mem_append.mp hwmem with h | h
        · exact hw w h
        · have he : w = ⟨j, v⟩ := List.mem_singleton.mp h
          rw [he]
          exact hm j hj
      · intro x hx
        exact hc x (List.mem_cons_of_mem _ hx)
    | none =>
      apply ih
      · intro j hj
        rcases List.mem_append.mp hj with h | h
        · exact hm j h
        · have he : j = ci := List.mem_singleton.mp h
          rw [he]
          exact hc ci (List.mem_cons_self ci rest)
      · exact hw
      · intro x hx
        exact hc x (List.mem_cons_of_mem _ hx)

lemma merge_store_run_segA_segC :
    merge_nearby_lines_store (mergeCond 10 5) [segA, segC]
      = ⟨[⟨4, 0, 104, 0⟩, segC], [0], [⟨0, ⟨4, 0, 104, 0⟩⟩]⟩ := by
  have hr : List.range 2 = [0, 1] := rfl
  have s2 : scanMergeStore (mergeCond 10 5) 1 ⟨[segA, segC], [0], []⟩ [0]
      = some ⟨[⟨4, 0, 104, 0⟩, segC], [0], [⟨0, ⟨4, 0, 104, 0⟩⟩]⟩ := by
    rw [scanMergeStore]
    have hg1 : getRow [segA, segC] 1 = segC := rfl
    have hg0 : getRow [segA, segC] 0 = segA := rfl
    rw [hg1, hg0, if_pos cond_segC_segA]
    have hms : mergeSeg segC segA = ⟨4, 0, 104, 0⟩ := by decide
    simp [hms]
  rw [merge_nearby_lines_store]
  simp only [List.length_cons, List.length_nil, hr]
  rw [mergeLoopStore]
  simp only
  rw [show scanMergeStore (mergeCond 10 5) 0 ⟨[segA, segC], [], []⟩ []
    = none from rfl]
  simp only [List.nil_append]
  rw [mergeLoopStore]
  simp only
  rw [s2]
  rfl

/-- C9: `merge_nearby_lines` is not pure in its input array.  In the model
that carries the caller's array explicitly, `merged_lines` holds aliases
(row indices) of the input rows, and each merge assigns the averaged row
through the alias (`m_line[0] = [...]`, `post_processing.py` line 89),
recorded in `writes`.  For every condition and input: if no write happened
the array is unchanged; the number of surviving aliases plus the number of
writes equals the input length, so a merge happened exactly when `writes` is
nonempty; and every write targets a row of the caller's array.  Concretely,
on `[segA, segC]` the single merge overwrites input row 0 in place: after
the call the caller's array holds `[(4,0,104,0), segC]`, not its original
contents. -/
theorem merge_aliasing_effect :
    (∀ (cond : Seg → Seg → Prop) (lines : List Seg),
        ((merge_nearby_lines_store cond lines).writes = [] →
          (merge_nearby_lines_store cond lines).store = lines) ∧
        (merge_nearby_lines_store cond lines).store.length = lines.length ∧
        (merge_nearby_lines_store cond lines).mergedIdx.length
            + (merge_nearby_lines_store cond lines).writes.length
          = lines.length ∧
        (∀ w ∈ (merge_nearby_lines_store cond lines).writes,
            w.idx < lines.length)) ∧
    (merge_nearby_lines_store (mergeCond 10 5) [segA, segC]).store
        = [⟨4, 0, 104, 0⟩, segC] ∧
    (merge_nearby_lines_store (mergeCond 10 5) [segA, segC]).store
        ≠ [segA, segC] ∧
    (merge_nearby_lines_store (mergeCond 10 5) [segA, segC]).writes
        = [⟨0, ⟨4, 0, 104, 0⟩⟩] := by
  refine ⟨?_, ?_, ?_, ?_⟩
  · intro cond lines
    have hprops := mergeLoopStore_props cond (List.range lines.length)
      ⟨lines, [], []⟩
    refine ⟨?_, ?_, ?_, ?_⟩
    · intro h
      exact mergeLoopStore_store_of_no_writes cond _ _ h
    · exact hprops.1
    · have := hprops.2.1
      simpa [List.length_range] using this
    · apply mergeLoopStore_writes_lt cond lines.length
      · intro j hj; simp at hj
      · intro w hw; simp at hw
      · intro ci hci
        exact List.mem_range.mp hci
  · rw [merge_store_run_segA_segC]
  · rw [merge_store_run_segA_segC]
    simp [segA]
  · rw [merge_store_run_segA_segC]

/-- C9 witness: the no-merge direction at a concrete input — on a singleton
candidate list nothing merges, no write happens, and the caller's array is
untouched. -/
theorem merge_aliasing_effect_witness :
    (merge_nearby_lines_store (mergeCond 10 5) [segA]).store = [segA] := by
  exact (merge_aliasing_effect.1 (mergeCond 10 5) [segA]).1 rfl

/-! ### Grid lemmas -/

lemma foregroundCount_zeroGrid (n : Nat) : foregroundCount (zeroGrid n) = 0 := by
  have hc : (List.replicate n (0 : Nat)).countP (fun v => v ≠ 0) = 0 := by
    rw [List.countP_eq_zero]
    intro a ha
    have he := List.eq_of_mem_replicate ha
    simp [he]
  simp [foregroundCount, zeroGrid, List.map_replicate, hc, List.sum_replicate]

lemma gridShape_binary_dilation (g : Grid) :
    gridShape (binary_dilation_disk1 g) = gridShape g := by
  unfold gridShape binary_dilation_disk1
  apply List.ext_getElem
  · simp
  · intro i h1 h2
    simp only [List.getElem_map, List.getElem_range, List.length_map,
      List.length_range]
    rw [List.getD_eq_getElem]

/-! ### Claim theorems for the detector, the skeletonizer, and the exporter -/

/-- C5 counterexample: on the all-zero 160x160 skeleton,
`detect_lines_skeleton` returns the Python `None` (the `none` of the model),
which is not an empty list. -/
theorem detect_zero_skeleton_cex :
    detect_lines_skeleton emptyHough (zeroGrid 160) = none ∧
    detect_lines_skeleton emptyHough (zeroGrid 160) ≠ some [] := by
  exact ⟨rfl, by decide⟩

/-- C5 (amended): on every skeleton with fewer foreground pixels than the
vote threshold 30 — in particular every all-zero skeleton — the detector
returns `None` (a null result), NOT an empty list, and the downstream merger
maps it to `None`; no error is raised.  This holds for every admissible
Hough core. -/
theorem detect_below_threshold_none (core : HoughCore) (g : Grid)
    (h : foregroundCount g < 30) :
    detect_lines_skeleton core g = none ∧
    merge_nearby_lines 10 5 (detect_lines_skeleton core g) = none := by
  have hd : core.detect g = [] := by
    by_contra hne
    have := core.min_votes g hne
    omega
  have h1 : detect_lines_skeleton core g = none := by
    simp only [detect_lines_skeleton, houghLinesP, hd]
  exact ⟨h1, by rw [h1]; rfl⟩

/-- C5 witness: the concrete all-zero 160x160 skeleton has no foreground
pixel, so the theorem applies to it. -/
theorem detect_below_threshold_none_witness :
    foregroundCount (zeroGrid 160) < 30 ∧
    detect_lines_skeleton emptyHough (zeroGrid 160) = none ∧
    merge_nearby_lines 10 5 (detect_lines_skeleton emptyHough (zeroGrid 160))
      = none := by
  have h : foregroundCount (zeroGrid 160) < 30 := by
    rw [foregroundCount_zeroGrid]
    norm_num
  exact ⟨h, detect_below_threshold_none emptyHough (zeroGrid 160) h⟩

/-- C6 counterexample: the 3x5 mask `mask35` does not have the expected
square shape, yet `post_process_mask` processes it normally — it returns the
dilated grid, with no rejection, report, or skip — where the spec-modelled
skeletonizer would reject it with `InputShapeError`. -/
theorem post_process_no_shape_check_cex :
    validMaskShape mask35 = false ∧
    post_process_mask idThin mask35
      = [[0, 1, 1, 1, 0], [0, 1, 1, 1, 0], [0, 1, 1, 1, 0]] ∧
    post_process_mask_spec idThin mask35 = .error "InputShapeError" := by
  refine ⟨by decide, by decide, ?_⟩
  rw [post_process_mask_spec,
    if_neg (by decide : ¬ validMaskShape mask35 = true)]

/-- C6 (amended): `post_process_mask` performs no dimension validation and
has no error or reject path: for EVERY mask — square or not — it succeeds as
a pure transform producing a grid of the same shape, for every admissible
skeletonize core. -/
theorem post_process_total_shape (core : ThinCore) (mask : Grid) :
    gridShape (post_process_mask core mask) = gridShape mask := by
  rw [post_process_mask, gridShape_binary_dilation, core.shape_eq]

/-- C3: the module never imports `os`, so every call of
`refine_and_save_as_svg` on a non-empty batch raises `NameError` at its very
first statement (`os.path.exists`, line 109) — before creating any directory
or writing any file — whatever the skeletonizer and detector cores do. -/
theorem exporter_raises_nameError (thin : ThinCore) (hough : HoughCore)
    (pred_masks : List Grid) (dir : String) (_h : pred_masks ≠ []) :
    refine_and_save_as_svg thin hough pred_masks dir
      = .error (.nameError "os") := by
  rw [refine_and_save_as_svg, if_neg (by decide)]

/-- C3 witness: the concrete instantiation on one all-zero mask with the
default output directory name. -/
theorem exporter_raises_nameError_witness :
    refine_and_save_as_svg idThin emptyHough [zeroGrid 4]
      "vectorized_svgs_final_please" = .error (.nameError "os") :=
  exporter_raises_nameError idThin emptyHough [zeroGrid 4]
    "vectorized_svgs_final_please" (by simp)

/-- C4 (code-bug evaluation): the exporter never reaches its per-sample
logic.  At the failing input — a batch of two masks — the call does not
create one file per surviving sample and does not skip-and-continue
non-fatally: it stops with `NameError` for the unbound global `os`, raised
by line 109 before the loop over samples begins. -/
theorem exporter_never_writes_eval :
    refine_and_save_as_svg idThin emptyHough [zeroGrid 160, mask35]
      "vectorized_svgs_final_please" = .error (.nameError "os") := by
  rw [refine_and_save_as_svg, if_neg (by decide)]

end PostProcessing
